import Mathlib

/-!
Verification of the contour xDS control plane sources against its
natural-language specification.

Go strings are byte strings; we model them as lists of byte values
(`GoString := List Nat`, each entry < 256 for well-formed inputs).
`len`, slicing and `<` on Go strings are byte-wise, which the list
operations mirror exactly.  Kubernetes object names, annotation keys and
values that are only compared for equality are kept as Lean `String`s.
-/

/-- A Go string: a sequence of bytes. -/
abbrev GoString := List Nat

/-- UTF-8 encoding of one character, as byte values (standard encoding,
    used to model Go's `[]byte(s)` conversion of a string literal). -/
def utf8Bytes (c : Char) : List Nat :=
  let n := c.toNat
  if n < 128 then [n]
  else if n < 2048 then [192 + n / 64, 128 + n % 64]
  else if n < 65536 then [224 + n / 4096, 128 + n / 64 % 64, 128 + n % 64]
  else [240 + n / 262144, 128 + n / 4096 % 64, 128 + n / 64 % 64, 128 + n % 64]

/-- The bytes of a Lean string, modelling Go's `[]byte(s)`. -/
def toBytes (s : String) : GoString :=
  (s.data.map utf8Bytes).flatten

/-- `strings.Join(s, "/")`: join byte strings with the byte `'/'` (47). -/
def joinSlash : List GoString → GoString
  | [] => []
  | [x] => x
  | x :: xs => x ++ 47 :: joinSlash xs

/-! SHA-256 (FIPS 180-4), over byte lists, words as `Nat` reduced mod 2^32.
    This models Go's `crypto/sha256.Sum256`. -/

/-- Reduce to a 32-bit word. -/
def w32 (x : Nat) : Nat := x % 4294967296

/-- 32-bit modular addition. -/
def wadd (a b : Nat) : Nat := (a + b) % 4294967296

/-- Right rotation of a 32-bit word. -/
def rotr32 (n x : Nat) : Nat := w32 ((x >>> n) ||| (x <<< (32 - n)))

/-- SHA-256 `Ch` function (`¬x` as xor with the 32-bit mask). -/
def shaCh (x y z : Nat) : Nat := (x &&& y) ^^^ ((x ^^^ 4294967295) &&& z)

/-- SHA-256 `Maj` function. -/
def shaMaj (x y z : Nat) : Nat := (x &&& y) ^^^ (x &&& z) ^^^ (y &&& z)

/-- SHA-256 big sigma 0. -/
def shaS0 (x : Nat) : Nat := rotr32 2 x ^^^ rotr32 13 x ^^^ rotr32 22 x

/-- SHA-256 big sigma 1. -/
def shaS1 (x : Nat) : Nat := rotr32 6 x ^^^ rotr32 11 x ^^^ rotr32 25 x

/-- SHA-256 small sigma 0. -/
def shaG0 (x : Nat) : Nat := rotr32 7 x ^^^ rotr32 18 x ^^^ (x >>> 3)

/-- SHA-256 small sigma 1. -/
def shaG1 (x : Nat) : Nat := rotr32 17 x ^^^ rotr32 19 x ^^^ (x >>> 10)

/-- SHA-256 round constants. -/
def shaK : List Nat :=
  [1116352408, 1899447441, 3049323471, 3921009573, 961987163,
   1508970993, 2453635748, 2870763221, 3624381080, 310598401,
   607225278, 1426881987, 1925078388, 2162078206, 2614888103,
   3248222580, 3835390401, 4022224774, 264347078, 604807628,
   770255983, 1249150122, 1555081692, 1996064986, 2554220882,
   2821834349, 2952996808, 3210313671, 3336571891, 3584528711,
   113926993, 338241895, 666307205, 773529912, 1294757372,
   1396182291, 1695183700, 1986661051, 2177026350, 2456956037,
   2730485921, 2820302411, 3259730800, 3345764771, 3516065817,
   3600352804, 4094571909, 275423344, 430227734, 506948616,
   659060556, 883997877, 958139571, 1322822218, 1537002063,
   1747873779, 1955562222, 2024104815, 2227730452, 2361852424,
   2428436474, 2756734187, 3204031479, 3329325298]

/-- Big-endian bytes of the 64-bit bit length. -/
def shaLenBytes (len : Nat) : List Nat :=
  let L := len * 8
  [L / 72057594037927936 % 256, L / 281474976710656 % 256,
   L / 1099511627776 % 256, L / 4294967296 % 256,
   L / 16777216 % 256, L / 65536 % 256, L / 256 % 256, L % 256]

/-- SHA-256 message padding. -/
def shaPad (msg : List Nat) : List Nat :=
  let len := msg.length
  let zeros := (119 - len % 64) % 64
  msg ++ 128 :: List.replicate zeros 0 ++ shaLenBytes len

/-- Combine groups of four bytes into big-endian 32-bit words. -/
def chunkWords : List Nat → List Nat
  | a :: b :: c :: d :: rest => (((a * 256 + b) * 256 + c) * 256 + d) :: chunkWords rest
  | _ => []

/-- Split a byte list into blocks of 64 bytes. -/
def chunk64 : List Nat → List (List Nat)
  | [] => []
  | x :: xs => ((x :: xs).take 64) :: chunk64 ((x :: xs).drop 64)
termination_by l => l.length
decreasing_by simp [List.length_drop]; omega

/-- Message-schedule extension, keeping the schedule reversed so the most
    recent word is the head (`rev.getD 1 0` is `w[t-2]`, etc.). -/
def shaExtend (rev : List Nat) : Nat → List Nat
  | 0 => rev
  | f + 1 =>
    shaExtend
      ((wadd (wadd (shaG1 (rev.getD 1 0)) (rev.getD 6 0))
          (wadd (shaG0 (rev.getD 14 0)) (rev.getD 15 0))) :: rev) f

/-- The eight 32-bit words of SHA-256 working state. -/
structure Sha8 where
  a : Nat
  b : Nat
  c : Nat
  d : Nat
  e : Nat
  f : Nat
  g : Nat
  h : Nat

/-- Initial SHA-256 state. -/
def shaH0 : Sha8 :=
  ⟨1779033703, 3144134277, 1013904242, 2773480762,
   1359893119, 2600822924, 528734635, 1541459225⟩

/-- One SHA-256 compression round, fed the pair `(K[t], W[t])`. -/
def shaRound (s : Sha8) (kw : Nat × Nat) : Sha8 :=
  let t1 := wadd s.h (wadd (shaS1 s.e) (wadd (shaCh s.e s.f s.g) (wadd kw.1 kw.2)))
  let t2 := wadd (shaS0 s.a) (shaMaj s.a s.b s.c)
  ⟨wadd t1 t2, s.a, s.b, s.c, wadd s.d t1, s.e, s.f, s.g⟩

/-- Compress one 64-byte block into the running hash state. -/
def shaCompress (hs : Sha8) (block : List Nat) : Sha8 :=
  let w := (shaExtend (chunkWords block).reverse 48).reverse
  let s := (shaK.zip w).foldl shaRound hs
  ⟨wadd s.a hs.a, wadd s.b hs.b, wadd s.c hs.c, wadd s.d hs.d,
   wadd s.e hs.e, wadd s.f hs.f, wadd s.g hs.g, wadd s.h hs.h⟩

/-- Big-endian bytes of one 32-bit word. -/
def wordBytes (w : Nat) : List Nat :=
  [w / 16777216 % 256, w / 65536 % 256, w / 256 % 256, w % 256]

/-- SHA-256 digest (32 bytes) of a byte string. -/
def sha256 (msg : List Nat) : List Nat :=
  let s := (chunk64 (shaPad msg)).foldl shaCompress shaH0
  wordBytes s.a ++ wordBytes s.b ++ wordBytes s.c ++ wordBytes s.d ++
  wordBytes s.e ++ wordBytes s.f ++ wordBytes s.g ++ wordBytes s.h

/-- Lowercase hex digit (as a byte value). -/
def hexDigit (n : Nat) : Nat := if n < 10 then 48 + n else 87 + n

/-- Lowercase hex rendering of a byte string, modelling `fmt.Sprintf("%x", ...)`. -/
def hexBytes (bs : List Nat) : GoString :=
  (bs.map (fun b => [hexDigit (b / 16), hexDigit (b % 16)])).flatten

/-- `fmt.Sprintf("%x", sha256.Sum256(r))` as a 64-byte ASCII hex string. -/
def sha256hex (r : GoString) : GoString := hexBytes (sha256 r)

namespace envoy

/-- `func min(a, b int) int` from internal/envoy/translator.go. -/
def gomin (a b : Nat) : Nat := if a > b then b else a

/-- `func truncate(l int, s, suffix string) string` from internal/envoy/translator.go:
    truncates `s` to `l` bytes by replacing the end of `s` with `-suffix`
    (byte 45 is `'-'`). -/
def truncate (l : Nat) (s sfx : GoString) : GoString :=
  if l ≥ s.length then s
  else if l ≤ sfx.length then sfx.take (gomin l sfx.length)
  else s.take (l - sfx.length - 1) ++ 45 :: sfx

/-- The `for n := len(s) - 1; n >= 0; n--` loop of `hashname`
    (internal/envoy/translator.go).  The counter `c` is the number of
    indices not yet processed, so iteration `c + 1` handles index `c`,
    starting from `len(s) - 1`; when every part has been truncated the
    hash itself, truncated to `l`, is returned. -/
def hashnameLoop (l : Nat) (short hash : GoString) : Nat → List GoString → GoString
  | 0, _ => hash.take (gomin hash.length l)
  | c + 1, s =>
    let s' := s.set c (truncate (l / s.length) (s.getD c []) short)
    let r := joinSlash s'
    if l > r.length then r else hashnameLoop l short hash c s'

/-- `func hashname(l int, s ...string) string` from internal/envoy/translator.go. -/
def hashname (l : Nat) (s : List GoString) : GoString :=
  let r := joinSlash s
  if l > r.length then r
  else
    let hash := sha256hex r
    hashnameLoop l (hash.take 6) hash s.length s

end envoy

namespace route

/-- `func min(a, b int) int` from internal/route/visitor.go (verbatim copy of
    the envoy package's). -/
def gomin (a b : Nat) : Nat := if a > b then b else a

/-- `func truncate(l int, s, suffix string) string` from internal/route/visitor.go
    (verbatim copy of the envoy package's). -/
def truncate (l : Nat) (s sfx : GoString) : GoString :=
  if l ≥ s.length then s
  else if l ≤ sfx.length then sfx.take (gomin l sfx.length)
  else s.take (l - sfx.length - 1) ++ 45 :: sfx

/-- The truncation loop of `hashname` from internal/route/visitor.go
    (verbatim copy of the envoy package's). -/
def hashnameLoop (l : Nat) (short hash : GoString) : Nat → List GoString → GoString
  | 0, _ => hash.take (gomin hash.length l)
  | c + 1, s =>
    let s' := s.set c (truncate (l / s.length) (s.getD c []) short)
    let r := joinSlash s'
    if l > r.length then r else hashnameLoop l short hash c s'

/-- `func hashname(l int, s ...string) string` from internal/route/visitor.go. -/
def hashname (l : Nat) (s : List GoString) : GoString :=
  let r := joinSlash s
  if l > r.length then r
  else
    let hash := sha256hex r
    hashnameLoop l (hash.take 6) hash s.length s

end route

namespace specref

/-- The truncation rule as worded in spec §4.1: "to fit a part into `l`
    characters with suffix `x`: if `l ≥ |s|` return `s`; if `l ≤ |x|` return
    `x[0:l]`; otherwise return `s[0:l-|x|-1] + "-" + x`". -/
def truncSpec (l : Nat) (s x : GoString) : GoString :=
  if l ≥ s.length then s
  else if l ≤ x.length then x.take l
  else s.take (l - x.length - 1) ++ 45 :: x

/-- The spec §4.1 truncation loop: "for `i` from `n-1` down to `0`: replace
    `sᵢ` with a truncation of itself to length `L/n` ... after each
    replacement recompute `r`; if `|r| < L` return.  If all parts have been
    truncated and still `|r| ≥ L`, return `h[0:L]`." -/
def hashnameSpecLoop (L : Nat) (short h : GoString) : Nat → List GoString → GoString
  | 0, _ => h.take L
  | c + 1, s =>
    let s' := s.set c (truncSpec (L / s.length) (s.getD c []) short)
    let r := joinSlash s'
    if r.length < L then r else hashnameSpecLoop L short h c s'

/-- The name-hasher reference algorithm exactly as worded in spec §4.1:
    `r = join("/", s)`; if `|r| < L` return `r`; otherwise
    `h = hex(SHA-256(r))`, `short = h[0:6]`, then the truncation loop. -/
def hashnameSpec (L : Nat) (s : List GoString) : GoString :=
  let r := joinSlash s
  if r.length < L then r
  else
    let h := sha256hex r
    hashnameSpecLoop L (h.take 6) h s.length s

end specref

/-! C1: the name hasher. -/

theorem gomin_le_right (a b : Nat) : envoy.gomin a b ≤ b := by
  unfold envoy.gomin; split <;> omega

theorem take_gomin_length (xs : List Nat) (l : Nat) :
    xs.take (envoy.gomin xs.length l) = xs.take l := by
  unfold envoy.gomin
  split
  · rfl
  · rw [List.take_length, List.take_of_length_le (by omega)]

theorem route_truncate_eq (l : Nat) (s sfx : GoString) :
    route.truncate l s sfx = envoy.truncate l s sfx := rfl

theorem spec_truncate_eq (l : Nat) (s sfx : GoString) :
    specref.truncSpec l s sfx = envoy.truncate l s sfx := by
  unfold specref.truncSpec envoy.truncate envoy.gomin
  split
  · rfl
  · split
    · split
      · omega
      · rfl
    · rfl

theorem route_hashnameLoop_eq (l : Nat) (short hash : GoString) (c : Nat) (s : List GoString) :
    route.hashnameLoop l short hash c s = envoy.hashnameLoop l short hash c s := by
  induction c generalizing s with
  | zero => rfl
  | succ c ih =>
    unfold route.hashnameLoop envoy.hashnameLoop
    simp only [route_truncate_eq]
    split
    · rfl
    · exact ih _

theorem spec_hashnameLoop_eq (l : Nat) (short hash : GoString) (c : Nat) (s : List GoString) :
    specref.hashnameSpecLoop l short hash c s = envoy.hashnameLoop l short hash c s := by
  induction c generalizing s with
  | zero =>
    show hash.take l = hash.take (envoy.gomin hash.length l)
    exact (take_gomin_length hash l).symm
  | succ c ih =>
    unfold specref.hashnameSpecLoop envoy.hashnameLoop
    simp only [spec_truncate_eq]
    split
    · rfl
    · exact ih _

theorem envoy_hashnameLoop_length_le (l : Nat) (short hash : GoString) (c : Nat)
    (s : List GoString) : (envoy.hashnameLoop l short hash c s).length ≤ l := by
  induction c generalizing s with
  | zero =>
    show (hash.take (envoy.gomin hash.length l)).length ≤ l
    rw [List.length_take]
    have := gomin_le_right hash.length l
    omega
  | succ c ih =>
    simp only [envoy.hashnameLoop, gt_iff_lt]
    split
    · omega
    · exact ih _

/-- C1: `hashname(L, s1..sn)` (present verbatim in both
    internal/envoy/translator.go and internal/route/visitor.go) implements
    exactly the reference algorithm of spec §4.1: it returns `join("/", s)`
    unchanged when its length is under `L`, otherwise repeatedly truncates
    parts from the last to the first with suffix `"-" + hex(SHA-256(join))[0:6]`,
    returning the join as soon as its length is under `L`, and falling back to
    a prefix of the hash otherwise.  Both copies agree pointwise (so the name
    is identical and bit-for-bit reproducible wherever it is computed — both
    are pure functions of `(L, s)`), and the result never exceeds `L` bytes. -/
theorem hashname_implements_spec_and_is_bounded (L : Nat) (s : List GoString) :
    specref.hashnameSpec L s = route.hashname L s ∧
    envoy.hashname L s = route.hashname L s ∧
    (route.hashname L s).length ≤ L := by
  refine ⟨?_, ?_, ?_⟩
  · simp only [specref.hashnameSpec, route.hashname, gt_iff_lt]
    split
    next => rfl
    next => rw [spec_hashnameLoop_eq, route_hashnameLoop_eq]
  · simp only [envoy.hashname, route.hashname, gt_iff_lt]
    split
    next => rfl
    next => rw [route_hashnameLoop_eq]
  · simp only [route.hashname, gt_iff_lt]
    split
    next h => omega
    next h =>
      rw [route_hashnameLoop_eq]
      exact envoy_hashnameLoop_length_le _ _ _ _ _

/-! Byte-wise lexicographic comparison of Go strings: `a < b` on Go strings
    compares byte by byte, the shorter string first on ties.  Used by
    `longestRouteFirst.Less` and the `...ByName.Less` cache orderings. -/

/-- Go string comparison `a < b` (byte-wise lexicographic, as a Bool). -/
def goStrLtb : GoString → GoString → Bool
  | [], [] => false
  | [], _ :: _ => true
  | _ :: _, [] => false
  | a :: as, b :: bs => if a < b then true else if b < a then false else goStrLtb as bs

theorem goStrLtb_irrefl (a : GoString) : goStrLtb a a = false := by
  induction a with
  | nil => rfl
  | cons x xs ih => simp [goStrLtb, ih]

theorem goStrLtb_asymm (a b : GoString) (h : goStrLtb a b = true) : goStrLtb b a = false := by
  induction a generalizing b with
  | nil =>
    cases b with
    | nil => simp [goStrLtb] at h
    | cons y ys => rfl
  | cons x xs ih =>
    cases b with
    | nil => simp [goStrLtb] at h
    | cons y ys =>
      simp only [goStrLtb] at h ⊢
      rcases Nat.lt_trichotomy x y with hxy | hxy | hxy
      · simp [hxy, Nat.lt_asymm hxy]
      · subst hxy
        simp only [lt_irrefl, if_false] at h ⊢
        exact ih _ (by simpa using h)
      · simp [hxy, Nat.lt_asymm hxy] at h

theorem goStrLtb_eq_of_not_lt (a b : GoString) (hab : goStrLtb a b = false)
    (hba : goStrLtb b a = false) : a = b := by
  induction a generalizing b with
  | nil =>
    cases b with
    | nil => rfl
    | cons y ys => simp [goStrLtb] at hab
  | cons x xs ih =>
    cases b with
    | nil => simp [goStrLtb] at hba
    | cons y ys =>
      simp only [goStrLtb] at hab hba
      rcases Nat.lt_trichotomy x y with hxy | hxy | hxy
      · simp [hxy] at hab
      · subst hxy
        simp only [lt_irrefl, if_false] at hab hba
        rw [ih ys hab hba]
      · simp [hxy] at hba

theorem goStrLtb_trans (a b c : GoString) (hab : goStrLtb a b = true)
    (hbc : goStrLtb b c = true) : goStrLtb a c = true := by
  induction a generalizing b c with
  | nil =>
    cases c with
    | nil =>
      cases b with
      | nil => exact hab
      | cons y ys => simp [goStrLtb] at hbc
    | cons z zs => rfl
  | cons x xs ih =>
    cases b with
    | nil => simp [goStrLtb] at hab
    | cons y ys =>
      cases c with
      | nil => simp [goStrLtb] at hbc
      | cons z zs =>
        simp only [goStrLtb] at hab hbc ⊢
        rcases Nat.lt_trichotomy x y with hxy | hxy | hxy
        · rcases Nat.lt_trichotomy y z with hyz | hyz | hyz
          · simp [Nat.lt_trans hxy hyz]
          · subst hyz; simp [hxy]
          · simp [hyz, Nat.lt_asymm hyz] at hbc
        · subst hxy
          rcases Nat.lt_trichotomy x z with hxz | hxz | hxz
          · simp [hxz]
          · subst hxz
            simp only [lt_irrefl, if_false] at hab hbc ⊢
            exact ih _ _ (by simpa using hab) (by simpa using hbc)
          · simp [hxz, Nat.lt_asymm hxz] at hbc
        · simp [hxy, Nat.lt_asymm hxy] at hab

theorem goStrLtb_false_total (a b : GoString) :
    goStrLtb a b = false ∨ goStrLtb b a = false := by
  cases h : goStrLtb a b with
  | false => exact Or.inl rfl
  | true => exact Or.inr (goStrLtb_asymm a b h)

theorem goStrLtb_false_trans (a b c : GoString) (hab : goStrLtb b a = false)
    (hbc : goStrLtb c b = false) : goStrLtb c a = false := by
  cases hca : goStrLtb c a with
  | false => rfl
  | true =>
    cases hcb : goStrLtb c b with
    | true => simp [hcb] at hbc
    | false =>
      cases hbc2 : goStrLtb b c with
      | true =>
        have := goStrLtb_trans b c a hbc2 hca
        simp [this] at hab
      | false =>
        have hbceq := goStrLtb_eq_of_not_lt b c hbc2 hcb
        subst hbceq
        simp [hca] at hab

theorem goStrLtb_true_of_ne (a b : GoString) (hba : goStrLtb b a = false)
    (hne : a ≠ b) : goStrLtb a b = true := by
  cases hab : goStrLtb a b with
  | true => rfl
  | false => exact absurd (goStrLtb_eq_of_not_lt a b hab hba) hne

/-! The route visitor (internal/route/visitor.go).  The DAG it walks is the
    output of the dag package (not among the sources); `Visitor.Visit` only
    observes, per root vertex, whether it is a `*dag.VirtualHost` or a
    `*dag.SecureVirtualHost`, its `FQDN()`, its `*dag.Route` children
    (`Prefix()`, `Websocket`, `HTTPSUpgrade`, `Timeout`) and their
    `*dag.Service` children (`Namespace()`, `Name()`, `Port`), so a DAG is
    modelled as the forest of exactly those observations. -/

/-- A `*dag.Service` vertex as observed by the route visitor. -/
structure DagService where
  ns : String
  name : String
  port : Int
deriving DecidableEq

/-- A `*dag.Route` vertex as observed by the route visitor.  `pfx` is
    `Route.Prefix()` (a Go string, hence bytes); `timeout` is the
    `time.Duration` in nanoseconds; `services` are the `*dag.Service`
    children collected by `r.Visit`. -/
structure DagRoute where
  pfx : GoString
  websocket : Bool
  httpsUpgrade : Bool
  timeout : Int
  services : List DagService
deriving DecidableEq

/-- A root vertex of the DAG as observed by `Visitor.Visit`. -/
inductive DagVertex where
  | virtualHost (fqdn : String) (routes : List DagRoute)
  | secureVirtualHost (fqdn : String) (routes : List DagRoute)
deriving DecidableEq

/-- The DAG, as the sequence of root vertices `DAG.Visit` enumerates. -/
abbrev Dag := List DagVertex

/-- A `route.Route` action: either a cluster action (`route.Route_Route`,
    with optional `UseWebsocket` and `Timeout` fields) or an HTTPS redirect
    (`route.Route_Redirect` with `HttpsRedirect: true`). -/
inductive RouteActionRec where
  | clusterRoute (cluster : GoString) (useWebsocket : Option Bool) (timeout : Option Int)
  | redirectHttps
deriving DecidableEq

/-- An emitted `route.Route`: a prefix match plus an action. -/
structure RouteRec where
  pfx : GoString
  action : RouteActionRec
deriving DecidableEq

/-- An emitted `route.VirtualHost`. -/
structure VirtualHostRec where
  name : GoString
  domains : List String
  routes : List RouteRec
deriving DecidableEq

/-- An emitted `v2.RouteConfiguration`. -/
structure RouteConfigurationRec where
  name : String
  virtualHosts : List VirtualHostRec
deriving DecidableEq

/-- `func actionroute(namespace, name string, port int, ws bool, timeout time.Duration)`
    from internal/route/visitor.go: the cluster name is
    `hashname(60, namespace, name, strconv.Itoa(port))`; `UseWebsocket` is set
    only when `ws` is true; the timeout switch maps `0` to "field not set",
    `-1` to a field set to zero, and anything else to a field set to the
    timeout itself. -/
def actionroute (ns name : String) (port : Int) (ws : Bool) (timeout : Int) : RouteActionRec :=
  let cluster := route.hashname 60 [toBytes ns, toBytes name, toBytes (toString port)]
  RouteActionRec.clusterRoute cluster
    (if ws then some true else none)
    (if timeout = 0 then none else if timeout = -1 then some 0 else some timeout)

/-- Extract the `Timeout` field of a cluster action (none for redirects). -/
def actionTimeout : RouteActionRec → Option Int
  | RouteActionRec.clusterRoute _ _ t => t
  | RouteActionRec.redirectHttps => none

/-- The `*dag.VirtualHost` branch of the per-route callback: skip the route
    when no `*dag.Service` resolves, otherwise build the route from
    `svcs[0]`, replacing the action by a 301 redirect when `HTTPSUpgrade`
    is set. -/
def buildRouteHTTP (r : DagRoute) : Option RouteRec :=
  match r.services with
  | [] => none
  | s0 :: _ =>
    let rr : RouteRec :=
      { pfx := r.pfx, action := actionroute s0.ns s0.name s0.port r.websocket r.timeout }
    some (if r.httpsUpgrade then { rr with action := RouteActionRec.redirectHttps } else rr)

/-- The `*dag.SecureVirtualHost` branch of the per-route callback: same as
    the plain branch but with no `HTTPSUpgrade` redirect override. -/
def buildRouteHTTPS (r : DagRoute) : Option RouteRec :=
  match r.services with
  | [] => none
  | s0 :: _ =>
    some { pfx := r.pfx, action := actionroute s0.ns s0.name s0.port r.websocket r.timeout }

/-- `longestRouteFirst` + `sort.Reverse` + `sort.Stable`, as the placement
    relation of a stable sort: `a` may be placed before `b` unless the
    reversed comparator orders `b` strictly first, i.e. unless
    `a.Prefix < b.Prefix`.  (Every route built by the visitor is a prefix
    match, so the non-prefix guard clauses of `Less` never fire.) -/
def routeOrd (a b : RouteRec) : Prop := goStrLtb a.pfx b.pfx = false

instance : DecidableRel routeOrd :=
  fun a b => inferInstanceAs (Decidable (goStrLtb a.pfx b.pfx = false))

instance : IsTotal RouteRec routeOrd :=
  ⟨fun a b => goStrLtb_false_total a.pfx b.pfx⟩

instance : IsTrans RouteRec routeOrd :=
  ⟨fun a b c hab hbc => goStrLtb_false_trans c.pfx b.pfx a.pfx hbc hab⟩

/-- `sort.Stable(sort.Reverse(longestRouteFirst(vhost.Routes)))`: a stable
    sort is uniquely determined by its comparator, and Mathlib's insertion
    sort is stable, so it computes exactly Go's result. -/
def sortRoutes (rs : List RouteRec) : List RouteRec := List.insertionSort routeOrd rs

/-- `domains := []string{hostname}`, extended with `hostname + port` when
    the hostname is not `"*"`. -/
def mkDomains (host : String) (portSfx : String) : List String :=
  if host ≠ "*" then [host, host ++ portSfx] else [host]

/-- The `*dag.VirtualHost` case of `Visitor.Visit`: build the vhost record,
    drop it when it has no routes, otherwise sort the routes and emit. -/
def httpVhost : DagVertex → Option VirtualHostRec
  | DagVertex.virtualHost hostname routes =>
    let rs := routes.filterMap buildRouteHTTP
    if rs.length < 1 then none
    else some { name := route.hashname 60 [toBytes hostname],
                domains := mkDomains hostname ":80",
                routes := sortRoutes rs }
  | DagVertex.secureVirtualHost _ _ => none

/-- The `*dag.SecureVirtualHost` case of `Visitor.Visit`. -/
def httpsVhost : DagVertex → Option VirtualHostRec
  | DagVertex.virtualHost _ _ => none
  | DagVertex.secureVirtualHost hostname routes =>
    let rs := routes.filterMap buildRouteHTTPS
    if rs.length < 1 then none
    else some { name := route.hashname 60 [toBytes hostname],
                domains := mkDomains hostname ":443",
                routes := sortRoutes rs }

/-- `Visitor.Visit` from internal/route/visitor.go: one pass over the DAG's
    root vertices, appending plain vhosts to `ingress_http` and secure
    vhosts to `ingress_https`. -/
def visitRoutes (d : Dag) : RouteConfigurationRec × RouteConfigurationRec :=
  ({ name := "ingress_http", virtualHosts := d.filterMap httpVhost },
   { name := "ingress_https", virtualHosts := d.filterMap httpsVhost })

/-! C2: ordering of routes within an emitted virtual host. -/

theorem httpVhost_routes_sorted (v : DagVertex) (vh : VirtualHostRec)
    (h : httpVhost v = some vh) : vh.routes.Pairwise routeOrd := by
  cases v with
  | virtualHost host rs =>
    unfold httpVhost at h
    dsimp only at h
    split at h
    · exact absurd h (by simp)
    · rw [← Option.some.inj h]
      exact List.sorted_insertionSort routeOrd _
  | secureVirtualHost host rs => simp [httpVhost] at h

theorem httpsVhost_routes_sorted (v : DagVertex) (vh : VirtualHostRec)
    (h : httpsVhost v = some vh) : vh.routes.Pairwise routeOrd := by
  cases v with
  | virtualHost host rs => simp [httpsVhost] at h
  | secureVirtualHost host rs =>
    unfold httpsVhost at h
    dsimp only at h
    split at h
    · exact absurd h (by simp)
    · rw [← Option.some.inj h]
      exact List.sorted_insertionSort routeOrd _

/-- C2 (amended): within every emitted virtual host, of both the
    `ingress_http` and the `ingress_https` configuration, the routes are
    sorted in descending byte-lexicographic order of their prefix strings
    (consecutive routes `a` then `b` satisfy `¬(a.Prefix < b.Prefix)`), the
    order computed by `sort.Stable(sort.Reverse(longestRouteFirst(...)))`.
    This is not descending-prefix-length order: see the counterexample. -/
theorem visit_routes_sorted_desc_lex (d : Dag) :
    (∀ vh ∈ (visitRoutes d).1.virtualHosts, vh.routes.Pairwise routeOrd) ∧
    (∀ vh ∈ (visitRoutes d).2.virtualHosts, vh.routes.Pairwise routeOrd) := by
  constructor
  · intro vh hvh
    obtain ⟨v, _, hveq⟩ := List.mem_filterMap.mp hvh
    exact httpVhost_routes_sorted v vh hveq
  · intro vh hvh
    obtain ⟨v, _, hveq⟩ := List.mem_filterMap.mp hvh
    exact httpsVhost_routes_sorted v vh hveq

/-- The route order asserted by the claim, weakened to its primary key
    only: descending prefix length.  (Any tiebreak refinement of the
    claimed order implies this.) -/
def descPrefixLen (a b : RouteRec) : Prop := b.pfx.length ≤ a.pfx.length

instance : DecidableRel descPrefixLen :=
  fun a b => inferInstanceAs (Decidable (b.pfx.length ≤ a.pfx.length))

/-- A service shared by the C2 example routes. -/
def c2Service : DagService := ⟨"default", "kuard", 8080⟩

/-- A DAG with one plain virtual host and two routes whose prefixes are
    `/b` (length 2) and `/aa` (length 3). -/
def c2Dag : Dag :=
  [DagVertex.virtualHost "*"
    [⟨toBytes "/b", false, false, 0, [c2Service]⟩,
     ⟨toBytes "/aa", false, false, 0, [c2Service]⟩]]

/-- The vhost the visitor emits for `c2Dag`. -/
def c2EmittedVhost : VirtualHostRec :=
  { name := route.hashname 60 [toBytes "*"],
    domains := ["*"],
    routes := [⟨toBytes "/b", actionroute "default" "kuard" 8080 false 0⟩,
               ⟨toBytes "/aa", actionroute "default" "kuard" 8080 false 0⟩] }

/-- C2 counterexample: on `c2Dag` the emitted routes are `/b` before `/aa`
    (descending byte-lexicographic order), which is ascending — not
    descending — prefix-length order, refuting the claim as stated for
    every reading of its tiebreak. -/
theorem visit_routes_not_sorted_by_length :
    ((visitRoutes c2Dag).1.virtualHosts.map (fun vh => vh.routes.map RouteRec.pfx)
        = [[toBytes "/b", toBytes "/aa"]]) ∧
    ¬ (∀ vh ∈ (visitRoutes c2Dag).1.virtualHosts, vh.routes.Pairwise descPrefixLen) := by
  constructor
  · decide
  · decide

/-- C2 witness: the amended theorem applied to `c2Dag`. -/
theorem visit_routes_sorted_desc_lex_witness :
    c2EmittedVhost ∈ (visitRoutes c2Dag).1.virtualHosts ∧
    c2EmittedVhost.routes.Pairwise routeOrd :=
  ⟨by decide, (visit_routes_sorted_desc_lex c2Dag).1 c2EmittedVhost (by decide)⟩

/-! C5: the timeout switch of `actionroute`. -/

/-- C5: for the cluster action built by `actionroute` from a DAG route with
    timeout `t`: `t = 0` leaves the `Timeout` field unset; the negative
    sentinel `t = -1` sets it to a zero duration (infinite on the wire);
    any other `t` sets it to exactly `t`. -/
theorem actionroute_timeout_cases (ns name : String) (port : Int) (ws : Bool) (t : Int) :
    (t = 0 → actionTimeout (actionroute ns name port ws t) = none) ∧
    (t = -1 → actionTimeout (actionroute ns name port ws t) = some 0) ∧
    (t ≠ 0 → t ≠ -1 → actionTimeout (actionroute ns name port ws t) = some t) := by
  refine ⟨fun h => ?_, fun h => ?_, fun h0 h1 => ?_⟩
  · simp [actionroute, actionTimeout, h]
  · simp [actionroute, actionTimeout, h]
  · simp [actionroute, actionTimeout, h0, h1]

/-- C5 witness: the three cases at concrete inputs (timeouts 0, -1 and 90s). -/
theorem actionroute_timeout_cases_witness :
    actionTimeout (actionroute "default" "kuard" 8080 false 0) = none ∧
    actionTimeout (actionroute "default" "kuard" 8080 false (-1)) = some 0 ∧
    actionTimeout (actionroute "default" "kuard" 8080 true 90000000000) = some 90000000000 :=
  ⟨(actionroute_timeout_cases "default" "kuard" 8080 false 0).1 rfl,
   (actionroute_timeout_cases "default" "kuard" 8080 false (-1)).2.1 rfl,
   (actionroute_timeout_cases "default" "kuard" 8080 true 90000000000).2.2
     (by decide) (by decide)⟩

/-! C8: emitted routes always reference a service; empty vhosts are dropped. -/

theorem buildRouteHTTP_some_services (r : DagRoute) (rr : RouteRec)
    (h : buildRouteHTTP r = some rr) : r.services ≠ [] := by
  intro hnil
  rw [buildRouteHTTP, hnil] at h
  exact Option.noConfusion h

theorem buildRouteHTTPS_some_services (r : DagRoute) (rr : RouteRec)
    (h : buildRouteHTTPS r = some rr) : r.services ≠ [] := by
  intro hnil
  rw [buildRouteHTTPS, hnil] at h
  exact Option.noConfusion h

/-- C8: in the route visitor's output, for every DAG state and for both the
    `ingress_http` and `ingress_https` configurations: a DAG route with zero
    resolved services is omitted (its builder returns nothing), every
    emitted virtual host has at least one route, and every emitted route
    comes from a DAG route of that host with at least one service. -/
theorem visit_routes_reference_services (d : Dag) :
    (∀ r : DagRoute, r.services = [] → buildRouteHTTP r = none ∧ buildRouteHTTPS r = none) ∧
    (∀ vh ∈ (visitRoutes d).1.virtualHosts, vh.routes ≠ [] ∧
      ∀ rr ∈ vh.routes, ∃ host rs dr, DagVertex.virtualHost host rs ∈ d ∧ dr ∈ rs ∧
        dr.services ≠ [] ∧ buildRouteHTTP dr = some rr) ∧
    (∀ vh ∈ (visitRoutes d).2.virtualHosts, vh.routes ≠ [] ∧
      ∀ rr ∈ vh.routes, ∃ host rs dr, DagVertex.secureVirtualHost host rs ∈ d ∧ dr ∈ rs ∧
        dr.services ≠ [] ∧ buildRouteHTTPS dr = some rr) := by
  refine ⟨fun r h => ⟨by rw [buildRouteHTTP, h], by rw [buildRouteHTTPS, h]⟩, ?_, ?_⟩
  · intro vh hvh
    obtain ⟨v, hv, hveq⟩ := List.mem_filterMap.mp hvh
    cases v with
    | secureVirtualHost host rs => simp [httpVhost] at hveq
    | virtualHost host rs =>
      unfold httpVhost at hveq
      dsimp only at hveq
      split at hveq
      · exact absurd hveq (by simp)
      · rw [← Option.some.inj hveq]
        constructor
        · have hlen : (sortRoutes (rs.filterMap buildRouteHTTP)).length =
              (rs.filterMap buildRouteHTTP).length :=
            (List.perm_insertionSort routeOrd _).length_eq
          intro hempty
          dsimp only at hempty
          rw [hempty] at hlen
          simp only [List.length_nil] at hlen
          omega
        · intro rr hrr
          have hrr2 : rr ∈ rs.filterMap buildRouteHTTP :=
            (List.mem_insertionSort routeOrd).mp hrr
          obtain ⟨dr, hdr, hbuild⟩ := List.mem_filterMap.mp hrr2
          exact ⟨host, rs, dr, hv, hdr, buildRouteHTTP_some_services dr rr hbuild, hbuild⟩
  · intro vh hvh
    obtain ⟨v, hv, hveq⟩ := List.mem_filterMap.mp hvh
    cases v with
    | virtualHost host rs => simp [httpsVhost] at hveq
    | secureVirtualHost host rs =>
      unfold httpsVhost at hveq
      dsimp only at hveq
      split at hveq
      · exact absurd hveq (by simp)
      · rw [← Option.some.inj hveq]
        constructor
        · have hlen : (sortRoutes (rs.filterMap buildRouteHTTPS)).length =
              (rs.filterMap buildRouteHTTPS).length :=
            (List.perm_insertionSort routeOrd _).length_eq
          intro hempty
          dsimp only at hempty
          rw [hempty] at hlen
          simp only [List.length_nil] at hlen
          omega
        · intro rr hrr
          have hrr2 : rr ∈ rs.filterMap buildRouteHTTPS :=
            (List.mem_insertionSort routeOrd).mp hrr
          obtain ⟨dr, hdr, hbuild⟩ := List.mem_filterMap.mp hrr2
          exact ⟨host, rs, dr, hv, hdr, buildRouteHTTPS_some_services dr rr hbuild, hbuild⟩

/-- A DAG for the C8 witness: a secure vhost with one route with a service
    and one route with no services. -/
def c8Dag : Dag :=
  [DagVertex.secureVirtualHost "www.example.com"
    [⟨toBytes "/", false, false, 0, [⟨"default", "backend", 80⟩]⟩,
     ⟨toBytes "/static", false, false, 0, []⟩]]

/-- The vhost emitted for `c8Dag`: the serviceless route is dropped. -/
def c8EmittedVhost : VirtualHostRec :=
  { name := route.hashname 60 [toBytes "www.example.com"],
    domains := ["www.example.com", "www.example.com:443"],
    routes := [⟨toBytes "/", actionroute "default" "backend" 80 false 0⟩] }

/-- C8 witness: the theorem applied to `c8Dag` at its emitted vhost. -/
theorem visit_routes_reference_services_witness :
    c8EmittedVhost ∈ (visitRoutes c8Dag).2.virtualHosts ∧ c8EmittedVhost.routes ≠ [] :=
  ⟨by decide, ((visit_routes_reference_services c8Dag).2.2 c8EmittedVhost (by decide)).1⟩

/-! C3: the resource caches (`clusterCache.Add` / `clusterCache.Remove`,
    part_002).  `v2.Cluster` is an external proto type of which the cache
    inspects only `Name`; the remaining fields are opaque to it and are
    abstracted as `payload`.  All four caches of part_002 are verbatim
    copies of the cluster cache up to the keyed field's name; the cluster
    cache is the one the claim cites. -/

/-- A `*v2.Cluster` as the cache sees it: its `Name` plus the rest of the
    message, opaque to the cache. -/
structure ClusterRec where
  name : GoString
  payload : String
deriving DecidableEq

/-- `clusterByName.Less` as the placement relation of a sort that orders
    ascending by name: `a` may precede `b` unless `b.Name < a.Name`. -/
def clusterOrd (a b : ClusterRec) : Prop := goStrLtb b.name a.name = false

instance : DecidableRel clusterOrd :=
  fun a b => inferInstanceAs (Decidable (goStrLtb b.name a.name = false))

instance : IsTotal ClusterRec clusterOrd :=
  ⟨fun a b => goStrLtb_false_total b.name a.name⟩

instance : IsTrans ClusterRec clusterOrd :=
  ⟨fun a b c hab hbc => goStrLtb_false_trans a.name b.name c.name hab hbc⟩

/-- Strict name order between cache entries. -/
def clusterNameLt (a b : ClusterRec) : Prop := goStrLtb a.name b.name = true

instance : IsAntisymm ClusterRec clusterNameLt :=
  ⟨fun a b h1 h2 => by
    have h3 := goStrLtb_asymm a.name b.name h1
    rw [h2] at h3
    exact Bool.noConfusion h3⟩

/-- `sort.Sort(clusterByName(cc.values))`.  Go's `sort.Sort` is an
    unspecified comparison sort; on every state these theorems evaluate it
    on, the names are pairwise distinct, where all comparison sorts agree,
    so it is modelled by insertion sort. -/
def sortClusters (vs : List ClusterRec) : List ClusterRec := List.insertionSort clusterOrd vs

/-- The zero `ClusterRec` (only used as the default of `getD`, guarded by
    an index bound). -/
def emptyCluster : ClusterRec := ⟨[], ""⟩

/-- `sort.Search(len(values), func(i) { values[i].Name >= name })`: on the
    sorted list this binary search returns the least index whose name is
    `≥ name` (`len(values)` when there is none), which `findIdx` computes. -/
@[reducible] def searchClusterGE (vs : List ClusterRec) (name : GoString) : Nat :=
  vs.findIdx (fun x => !(goStrLtb x.name name))

/-- `func (cc *clusterCache) Add(c *v2.Cluster)` from part_002: sort, search
    for the name; replace in place when present, else append and re-sort. -/
def clusterCacheAdd (values : List ClusterRec) (c : ClusterRec) : List ClusterRec :=
  let vs := sortClusters values
  let i := searchClusterGE vs c.name
  if i < vs.length ∧ (vs.getD i emptyCluster).name = c.name then vs.set i c
  else sortClusters (vs ++ [c])

/-- `func (cc *clusterCache) Remove(name string)` from part_002: sort,
    search for the name; splice the entry out when present, else no-op. -/
def clusterCacheRemove (values : List ClusterRec) (name : GoString) : List ClusterRec :=
  let vs := sortClusters values
  let i := searchClusterGE vs name
  if i < vs.length ∧ (vs.getD i emptyCluster).name = name then vs.eraseIdx i else vs

/-- `func (cc *clusterCache) Values()` from part_002: a copy of the
    contents (value-equal to the state itself). -/
def clusterCacheValues (values : List ClusterRec) : List ClusterRec := values

/-- C3 counterexample: with the cache holding an entry named `"a"` (byte 97)
    with payload `"p1"`, `Add` of a same-named entry with payload `"p2"`
    replaces it, and the `Remove` then deletes it: the two `Values()`
    snapshots differ, refuting the claim's "no precondition on whether an
    entry named X.name was already present". -/
theorem cluster_add_remove_not_roundtrip :
    clusterCacheValues
        (clusterCacheRemove (clusterCacheAdd [⟨[97], "p1"⟩] ⟨[97], "p2"⟩) [97]) ≠
      clusterCacheValues [⟨[97], "p1"⟩] := by
  decide

instance : DecidableRel clusterNameLt :=
  fun a b => inferInstanceAs (Decidable (goStrLtb a.name b.name = true))

theorem strict_sorted_clusterOrd (vs : List ClusterRec) (h : vs.Pairwise clusterNameLt) :
    List.Sorted clusterOrd vs :=
  h.imp (fun hab => goStrLtb_asymm _ _ hab)

theorem strict_names_ne (vs : List ClusterRec) (h : vs.Pairwise clusterNameLt) :
    vs.Pairwise (fun a b => a.name ≠ b.name) :=
  h.imp (fun hab heq => by
    unfold clusterNameLt at hab
    rw [heq, goStrLtb_irrefl] at hab
    exact Bool.noConfusion hab)

theorem names_nodup (vs : List ClusterRec) (h : vs.Pairwise clusterNameLt) :
    (vs.map ClusterRec.name).Nodup :=
  List.pairwise_map.mpr (strict_names_ne vs h)

theorem pairwise_ne_of_names_nodup (vs : List ClusterRec)
    (h : (vs.map ClusterRec.name).Nodup) : vs.Pairwise (fun a b => a.name ≠ b.name) :=
  List.pairwise_map.mp h

/-- C3 (amended): on every cache state whose entries are strictly sorted by
    name (the invariant every state reachable by `Add`/`Remove` from the
    empty cache satisfies, `sort.Sort` being a no-op there) and which holds
    no entry named `X.name`, `Add(X)` followed by `Remove(X.name)` restores
    the previous `Values()` snapshot exactly.  When an entry named `X.name`
    is already present the round trip destroys it (see the counterexample),
    so the claim's "no precondition" clause fails. -/
theorem cluster_add_remove_roundtrip (values : List ClusterRec) (c : ClusterRec)
    (hsorted : values.Pairwise clusterNameLt)
    (hfresh : ∀ x ∈ values, x.name ≠ c.name) :
    clusterCacheValues (clusterCacheRemove (clusterCacheAdd values c) c.name) =
      clusterCacheValues values := by
  have hvs : sortClusters values = values :=
    List.Sorted.insertionSort_eq (strict_sorted_clusterOrd values hsorted)
  have hguardv : ¬ (searchClusterGE values c.name < values.length ∧
      (values.getD (searchClusterGE values c.name) emptyCluster).name = c.name) := by
    rintro ⟨hlt, heq⟩
    rw [List.getD_eq_getElem values emptyCluster hlt] at heq
    exact hfresh _ (List.getElem_mem hlt) heq
  have hadd : clusterCacheAdd values c = sortClusters (values ++ [c]) := by
    unfold clusterCacheAdd
    dsimp only
    rw [hvs, if_neg hguardv]
  have hw_sorted : List.Sorted clusterOrd (sortClusters (values ++ [c])) :=
    List.sorted_insertionSort clusterOrd _
  have hw_perm : (sortClusters (values ++ [c])).Perm (values ++ [c]) :=
    List.perm_insertionSort clusterOrd _
  have happ_nodup : ((values ++ [c]).map ClusterRec.name).Nodup := by
    rw [List.map_append, List.nodup_append]
    refine ⟨names_nodup values hsorted, by simp, ?_⟩
    intro a ha hb
    simp only [List.map_cons, List.map_nil, List.mem_singleton] at hb
    obtain ⟨x, hx, hxa⟩ := List.mem_map.mp ha
    exact hfresh x hx (by rw [hxa, hb])
  have hw_nodup : ((sortClusters (values ++ [c])).map ClusterRec.name).Nodup :=
    ((hw_perm.map ClusterRec.name).nodup_iff).mpr happ_nodup
  have hcw : c ∈ sortClusters (values ++ [c]) := hw_perm.mem_iff.mpr (by simp)
  have hsw : sortClusters (sortClusters (values ++ [c])) = sortClusters (values ++ [c]) :=
    List.Sorted.insertionSort_eq hw_sorted
  have hilt : searchClusterGE (sortClusters (values ++ [c])) c.name <
      (sortClusters (values ++ [c])).length := by
    apply List.findIdx_lt_length_of_exists
    exact ⟨c, hcw, by simp [goStrLtb_irrefl]⟩
  have hpi : goStrLtb
      ((sortClusters (values ++ [c])).getD
        (searchClusterGE (sortClusters (values ++ [c])) c.name) emptyCluster).name
      c.name = false := by
    rw [List.getD_eq_getElem _ emptyCluster hilt]
    have h2 := @List.findIdx_getElem _ (fun x => !(goStrLtb x.name c.name))
      (sortClusters (values ++ [c])) hilt
    simpa using h2
  obtain ⟨j, hjlt, hje⟩ := List.getElem_of_mem hcw
  have hij : searchClusterGE (sortClusters (values ++ [c])) c.name ≤ j := by
    by_contra hgt
    push_neg at hgt
    have hfalse := @List.not_of_lt_findIdx _ (fun x => !(goStrLtb x.name c.name))
      (sortClusters (values ++ [c])) j hgt
    rw [hje] at hfalse
    simp [goStrLtb_irrefl] at hfalse
  have hnamei : ((sortClusters (values ++ [c])).getD
      (searchClusterGE (sortClusters (values ++ [c])) c.name) emptyCluster).name = c.name := by
    rw [List.getD_eq_getElem _ emptyCluster hilt]
    rcases Nat.lt_or_ge (searchClusterGE (sortClusters (values ++ [c])) c.name) j
      with hlt2 | hge
    · have hrel := (List.pairwise_iff_getElem.mp hw_sorted) _ j hilt hjlt hlt2
      rw [hje] at hrel
      refine goStrLtb_eq_of_not_lt _ _ ?_ hrel
      have := hpi
      rw [List.getD_eq_getElem _ emptyCluster hilt] at this
      exact this
    · have hieq : searchClusterGE (sortClusters (values ++ [c])) c.name = j :=
        Nat.le_antisymm hij hge
      simp only [hieq]
      rw [hje]
  have hweq : (sortClusters (values ++ [c]))[searchClusterGE
      (sortClusters (values ++ [c])) c.name] = c := by
    apply List.inj_on_of_nodup_map hw_nodup (List.getElem_mem hilt) hcw
    have := hnamei
    rw [List.getD_eq_getElem _ emptyCluster hilt] at this
    exact this
  have hrem : clusterCacheRemove (sortClusters (values ++ [c])) c.name =
      (sortClusters (values ++ [c])).eraseIdx
        (searchClusterGE (sortClusters (values ++ [c])) c.name) := by
    unfold clusterCacheRemove
    dsimp only
    rw [hsw]
    rw [if_pos ⟨hilt, hnamei⟩]
  have hperm1 : (sortClusters (values ++ [c])).Perm (c :: values) :=
    hw_perm.trans (List.perm_append_singleton c values)
  have hperm2 : (sortClusters (values ++ [c])).Perm
      ((sortClusters (values ++ [c]))[searchClusterGE (sortClusters (values ++ [c])) c.name] ::
        (sortClusters (values ++ [c])).eraseIdx
          (searchClusterGE (sortClusters (values ++ [c])) c.name)) := by
    conv_lhs => rw [← List.take_append_drop
      (searchClusterGE (sortClusters (values ++ [c])) c.name) (sortClusters (values ++ [c]))]
    rw [← List.getElem_cons_drop _ _ hilt, List.eraseIdx_eq_take_drop_succ]
    exact List.perm_middle
  have hperm2c : (sortClusters (values ++ [c])).Perm
      (c :: (sortClusters (values ++ [c])).eraseIdx
        (searchClusterGE (sortClusters (values ++ [c])) c.name)) := by
    have h2 := hperm2
    rw [hweq] at h2
    exact h2
  have hperm3 : ((sortClusters (values ++ [c])).eraseIdx
      (searchClusterGE (sortClusters (values ++ [c])) c.name)).Perm values :=
    (hperm2c.symm.trans hperm1).cons_inv
  have hsub : ((sortClusters (values ++ [c])).eraseIdx
      (searchClusterGE (sortClusters (values ++ [c])) c.name)).Sublist
        (sortClusters (values ++ [c])) :=
    List.eraseIdx_sublist _ _
  have herase_sorted : List.Sorted clusterOrd ((sortClusters (values ++ [c])).eraseIdx
      (searchClusterGE (sortClusters (values ++ [c])) c.name)) :=
    List.Pairwise.sublist hsub hw_sorted
  have herase_nodup : (((sortClusters (values ++ [c])).eraseIdx
      (searchClusterGE (sortClusters (values ++ [c])) c.name)).map ClusterRec.name).Nodup :=
    List.Nodup.sublist (hsub.map _) hw_nodup
  have herase_strict : ((sortClusters (values ++ [c])).eraseIdx
      (searchClusterGE (sortClusters (values ++ [c])) c.name)).Pairwise clusterNameLt :=
    (herase_sorted.and (pairwise_ne_of_names_nodup _ herase_nodup)).imp
      (fun hab => goStrLtb_true_of_ne _ _ hab.1 hab.2)
  show clusterCacheRemove (clusterCacheAdd values c) c.name = values
  rw [hadd, hrem]
  exact List.eq_of_perm_of_sorted hperm3 herase_strict hsorted

/-- C3 witness: the round trip at a concrete sorted cache and fresh entry. -/
theorem cluster_add_remove_roundtrip_witness :
    clusterCacheValues
        (clusterCacheRemove (clusterCacheAdd [⟨[97], "p"⟩] ⟨[98], "q"⟩) [98]) =
      clusterCacheValues [⟨[97], "p"⟩] :=
  cluster_add_remove_roundtrip [⟨[97], "p"⟩] ⟨[98], "q"⟩ (by decide) (by decide)

/-! C4: the `contour.heptio.com/request-timeout` annotation (part_000).
    Annotation maps (`map[string]string`) are modelled as association
    lists with unique keys looked up by `lookupAnn`. -/

/-- `annotations[k]`: the two-valued Go map lookup. -/
def lookupAnn (annotations : List (String × String)) (k : String) : Option String :=
  (annotations.find? (fun kv => kv.1 == k)).map (fun kv => kv.2)

/-- `const requestTimeout = "contour.heptio.com/request-timeout"`. -/
def requestTimeoutKey : String := "contour.heptio.com/request-timeout"

/-- `infiniteTimeout = time.Duration(0)`: the explicit value 0 tells the
    proxy "never time out".  Durations are `int64` nanoseconds. -/
def infiniteTimeout : Int := 0

/-- `func getRequestTimeout(annotations map[string]string) (time.Duration, bool)`
    from part_000.  `time.ParseDuration` is the Go standard library's
    duration parser, external to this repository; it is abstracted as the
    `parseDuration` argument (returning `none` exactly when Go returns an
    error). -/
def getRequestTimeout (parseDuration : String → Option Int)
    (annotations : List (String × String)) : Int × Bool :=
  match lookupAnn annotations requestTimeoutKey with
  | none => (0, false)
  | some timeoutStr =>
    if timeoutStr = "" then (0, false)
    else if timeoutStr = "infinity" then (infiniteTimeout, true)
    else
      match parseDuration timeoutStr with
      | some timeoutParsed => (timeoutParsed, true)
      | none => (infiniteTimeout, true)

/-- C4: for every annotation map and every duration parser: an absent key or
    empty value sets no timeout; the literal `"infinity"` sets the infinite
    timeout (explicit 0); a value that parses sets exactly the parsed
    duration; a value that fails to parse sets the infinite timeout — which
    is 0, never the proxy's 15-second default. -/
theorem getRequestTimeout_cases (parseDuration : String → Option Int)
    (annotations : List (String × String)) :
    (lookupAnn annotations requestTimeoutKey = none →
      getRequestTimeout parseDuration annotations = (0, false)) ∧
    (lookupAnn annotations requestTimeoutKey = some "" →
      getRequestTimeout parseDuration annotations = (0, false)) ∧
    (lookupAnn annotations requestTimeoutKey = some "infinity" →
      getRequestTimeout parseDuration annotations = (infiniteTimeout, true)) ∧
    (∀ s d, lookupAnn annotations requestTimeoutKey = some s → s ≠ "" → s ≠ "infinity" →
      parseDuration s = some d →
      getRequestTimeout parseDuration annotations = (d, true)) ∧
    (∀ s, lookupAnn annotations requestTimeoutKey = some s → s ≠ "" → s ≠ "infinity" →
      parseDuration s = none →
      getRequestTimeout parseDuration annotations = (infiniteTimeout, true) ∧
        infiniteTimeout ≠ 15000000000) := by
  refine ⟨fun h => ?_, fun h => ?_, fun h => ?_, fun s d h hs hi hp => ?_, fun s h hs hi hp => ?_⟩
  · rw [getRequestTimeout, h]
  · rw [getRequestTimeout, h]
    simp
  · rw [getRequestTimeout, h]
    simp [infiniteTimeout]
  · rw [getRequestTimeout, h]
    simp [hs, hi, hp]
  · rw [getRequestTimeout, h]
    simp [hs, hi, hp]
    decide

/-- C4 witness: the five cases at concrete annotation maps, with a parser
    accepting exactly `"90s"`. -/
theorem getRequestTimeout_cases_witness :
    getRequestTimeout (fun s => if s = "90s" then some 90000000000 else none) [] = (0, false) ∧
    getRequestTimeout (fun s => if s = "90s" then some 90000000000 else none)
      [("contour.heptio.com/request-timeout", "")] = (0, false) ∧
    getRequestTimeout (fun s => if s = "90s" then some 90000000000 else none)
      [("contour.heptio.com/request-timeout", "infinity")] = (infiniteTimeout, true) ∧
    getRequestTimeout (fun s => if s = "90s" then some 90000000000 else none)
      [("contour.heptio.com/request-timeout", "90s")] = (90000000000, true) ∧
    getRequestTimeout (fun s => if s = "90s" then some 90000000000 else none)
      [("contour.heptio.com/request-timeout", "bogus")] = (infiniteTimeout, true) :=
  ⟨(getRequestTimeout_cases _ _).1 (by decide),
   (getRequestTimeout_cases _ _).2.1 (by decide),
   (getRequestTimeout_cases _ _).2.2.1 (by decide),
   (getRequestTimeout_cases _ _).2.2.2.1 "90s" 90000000000 (by decide) (by decide) (by decide)
     (by decide),
   ((getRequestTimeout_cases _ _).2.2.2.2 "bogus" (by decide) (by decide) (by decide)
     (by decide)).1⟩

/-! C7 and C10: the ingress-class filter of the event handler
    (`DAGAdapter` in internal/contour/adapter.go; `ResourceEventHandler`
    in internal/contour/k8s.go is a verbatim copy of the filter logic).
    `OnAdd`'s argument is an `interface{}` holding one of the five watched
    kinds; `validIngressClass` type-asserts `*v1beta1.Ingress`. -/

/-- One of the five watched object kinds, with its annotations.  Only an
    Ingress's annotations are ever read by the filter; the other kinds
    carry theirs solely so "regardless of annotations" is expressible. -/
inductive K8sObject where
  | ingress (annotations : List (String × String))
  | service (annotations : List (String × String))
  | endpoints (annotations : List (String × String))
  | secret (annotations : List (String × String))
  | ingressRoute (annotations : List (String × String))
deriving DecidableEq

/-- The `kubernetes.io/ingress.class` key. -/
def ingressClassKey : String := "kubernetes.io/ingress.class"

/-- `const DEFAULT_INGRESS_CLASS = "contour"`. -/
def DEFAULT_INGRESS_CLASS : String := "contour"

/-- `func (d *DAGAdapter) ingressClass() string`: the configured
    `IngressClass`, or the default when not configured (empty). -/
def ingressClassOf (configured : String) : String :=
  if configured ≠ "" then configured else DEFAULT_INGRESS_CLASS

/-- `func (d *DAGAdapter) validIngressClass(obj interface{}) bool`: true iff
    `obj` is not an Ingress, has no ingress.class annotation, or its
    annotation equals the configured class. -/
def validIngressClass (configured : String) : K8sObject → Bool
  | K8sObject.ingress annotations =>
    match lookupAnn annotations ingressClassKey with
    | none => true
    | some class0 => class0 == ingressClassOf configured
  | _ => true

/-- Whether an object is an Ingress (the type assertion's outcome). -/
def isIngress : K8sObject → Bool
  | K8sObject.ingress _ => true
  | _ => false

/-- Modelled from the spec: `dag.Insert` (the dag package is not among the
    sources) "mutates only the object cache"; the cache is modelled as the
    sequence of inserted objects. -/
def dagInsert (obj : K8sObject) (objects : List K8sObject) : List K8sObject :=
  obj :: objects

/-- Modelled from the spec: `dag.Remove` removes the object from the
    object cache. -/
def dagRemove (obj : K8sObject) (objects : List K8sObject) : List K8sObject :=
  objects.erase obj

/-- `func (d *DAGAdapter) OnAdd(obj interface{})` from
    internal/contour/adapter.go: drop silently unless the ingress class is
    valid, else insert (the subsequent `d.update()` recompute reads the
    cache but does not change it). -/
def onAdd (configured : String) (objects : List K8sObject) (obj : K8sObject) :
    List K8sObject :=
  if !(validIngressClass configured obj) then objects
  else dagInsert obj objects

/-- `func (d *DAGAdapter) OnDelete(obj interface{})`: remove, no class check. -/
def onDelete (objects : List K8sObject) (obj : K8sObject) : List K8sObject :=
  dagRemove obj objects

/-- `func (d *DAGAdapter) OnUpdate(oldObj, newObj interface{})`: both
    invalid does nothing; old valid and new invalid deletes the old;
    otherwise remove old, insert new. -/
def onUpdate (configured : String) (objects : List K8sObject)
    (oldObj newObj : K8sObject) : List K8sObject :=
  let oldValid := validIngressClass configured oldObj
  let newValid := validIngressClass configured newObj
  if !oldValid && !newValid then objects
  else if oldValid && !newValid then onDelete objects oldObj
  else dagInsert newObj (dagRemove oldObj objects)

/-- C7: an Ingress delivered to `OnAdd` is admitted (inserted into the
    object cache) iff its `kubernetes.io/ingress.class` annotation is
    absent or equal to the configured class, which defaults to
    `"contour"` when unset; otherwise it is dropped with no state
    change. -/
theorem on_add_ingress_class_filter (configured : String)
    (annotations : List (String × String)) (objects : List K8sObject) :
    (validIngressClass configured (K8sObject.ingress annotations) = true ↔
      (lookupAnn annotations ingressClassKey = none ∨
        lookupAnn annotations ingressClassKey =
          some (if configured = "" then "contour" else configured))) ∧
    (∀ obj, validIngressClass configured obj = true →
      onAdd configured objects obj = dagInsert obj objects) ∧
    (∀ obj, validIngressClass configured obj = false →
      onAdd configured objects obj = objects) := by
  refine ⟨⟨fun h => ?_, fun h => ?_⟩, fun obj h => ?_, fun obj h => ?_⟩
  · simp only [validIngressClass] at h
    cases hl : lookupAnn annotations ingressClassKey with
    | none => exact Or.inl rfl
    | some class0 =>
      right
      rw [hl] at h
      have h2 : (class0 == ingressClassOf configured) = true := h
      rw [eq_of_beq h2]
      unfold ingressClassOf DEFAULT_INGRESS_CLASS
      by_cases hc : configured = ""
      · simp [hc]
      · simp [hc]
  · simp only [validIngressClass]
    cases hl : lookupAnn annotations ingressClassKey with
    | none => rfl
    | some class0 =>
      rcases h with h | h
      · rw [hl] at h
        exact Option.noConfusion h
      · rw [hl] at h
        have h2 := Option.some.inj h
        show (class0 == ingressClassOf configured) = true
        rw [h2]
        unfold ingressClassOf DEFAULT_INGRESS_CLASS
        by_cases hc : configured = ""
        · simp [hc]
        · simp [hc]
  · rw [onAdd, h]
    rfl
  · rw [onAdd, h]
    rfl

/-- C7 witness: the filter at concrete inputs (matching annotation with the
    default class; valid and invalid adds). -/
theorem on_add_ingress_class_filter_witness :
    (validIngressClass "" (K8sObject.ingress [("kubernetes.io/ingress.class", "contour")])
        = true) ∧
    onAdd "" [] (K8sObject.ingress [("kubernetes.io/ingress.class", "contour")]) =
      dagInsert (K8sObject.ingress [("kubernetes.io/ingress.class", "contour")]) [] ∧
    onAdd "" [] (K8sObject.ingress [("kubernetes.io/ingress.class", "nginx")]) = [] :=
  ⟨((on_add_ingress_class_filter "" [("kubernetes.io/ingress.class", "contour")] []).1).mpr
      (Or.inr (by decide)),
   (on_add_ingress_class_filter "" [("kubernetes.io/ingress.class", "contour")] []).2.1 _
      (by decide),
   (on_add_ingress_class_filter "" [("kubernetes.io/ingress.class", "nginx")] []).2.2 _
      (by decide)⟩

/-- C10: the ingress-class filter admits every non-Ingress object: whatever
    annotations a Service, Endpoints, Secret or IngressRoute carries,
    `validIngressClass` returns true, `OnAdd` always inserts it, and
    `OnUpdate` of two non-Ingress objects always takes the
    remove-old-insert-new path. -/
theorem non_ingress_always_admitted (configured : String) (objects : List K8sObject)
    (oldObj newObj : K8sObject) :
    (∀ obj, isIngress obj = false → validIngressClass configured obj = true) ∧
    (∀ obj, isIngress obj = false →
      onAdd configured objects obj = dagInsert obj objects) ∧
    (isIngress oldObj = false → isIngress newObj = false →
      onUpdate configured objects oldObj newObj =
        dagInsert newObj (dagRemove oldObj objects)) := by
  have hvalid : ∀ obj : K8sObject, isIngress obj = false →
      validIngressClass configured obj = true := by
    intro obj h
    cases obj with
    | ingress annotations => exact absurd h (by simp [isIngress])
    | service annotations => rfl
    | endpoints annotations => rfl
    | secret annotations => rfl
    | ingressRoute annotations => rfl
  refine ⟨hvalid, fun obj h => ?_, fun hOld hNew => ?_⟩
  · rw [onAdd, hvalid obj h]
    rfl
  · simp only [onUpdate]
    rw [hvalid oldObj hOld, hvalid newObj hNew]
    simp

/-- C10 witness: a Service carrying a foreign ingress-class annotation is
    admitted, and an update between two annotated non-Ingress objects
    removes the old and inserts the new. -/
theorem non_ingress_always_admitted_witness :
    validIngressClass "contour" (K8sObject.service [("kubernetes.io/ingress.class", "nginx")])
        = true ∧
    onAdd "contour" [] (K8sObject.secret [("kubernetes.io/ingress.class", "nginx")]) =
      dagInsert (K8sObject.secret [("kubernetes.io/ingress.class", "nginx")]) [] ∧
    onUpdate "contour" [] (K8sObject.endpoints [("kubernetes.io/ingress.class", "nginx")])
        (K8sObject.ingressRoute []) =
      dagInsert (K8sObject.ingressRoute [])
        (dagRemove (K8sObject.endpoints [("kubernetes.io/ingress.class", "nginx")]) []) :=
  ⟨(non_ingress_always_admitted "contour" [] (K8sObject.ingressRoute [])
      (K8sObject.ingressRoute [])).1 _ (by decide),
   (non_ingress_always_admitted "contour" [] (K8sObject.ingressRoute [])
      (K8sObject.ingressRoute [])).2.1 _ (by decide),
   (non_ingress_always_admitted "contour" []
      (K8sObject.endpoints [("kubernetes.io/ingress.class", "nginx")])
      (K8sObject.ingressRoute [])).2.2 (by decide) (by decide)⟩

/-! C6 and C9: the discovery server.  Two generations exist in the sources:
    the per-type handlers of part_003 (`CDS.StreamClusters`, ...) and the
    consolidated `grpcServer` of part_004.  `proto.Marshal` is external and
    never fails on these messages; a marshalled entry is modelled as the
    message itself wrapped in its `Any` envelope. -/

/-- An `any.Any` / `types.Any` envelope around a serialized resource. -/
structure AnyRec (α : Type) where
  typeUrl : String
  value : α
deriving DecidableEq

/-- A `v2.DiscoveryResponse`. -/
structure DiscoveryResponseRec (α : Type) where
  versionInfo : String
  resources : List (AnyRec α)
  typeUrl : String
  nonce : String
deriving DecidableEq

/-- A `v2.DiscoveryRequest` (the fields the server reads). -/
structure DiscoveryRequestRec where
  typeUrl : String
  versionInfo : String
deriving DecidableEq

/-- `ClusterType = "type.googleapis.com/envoy.api.v2.Cluster"`. -/
def ClusterType : String := "type.googleapis.com/envoy.api.v2.Cluster"

/-- One iteration's worth of input to `CDS.StreamClusters` (part_003): the
    version received on the notification channel and the cache contents
    `c.Values()` reads at that moment. -/
structure CdsEvent where
  version : Nat
  values : List ClusterRec
deriving DecidableEq

/-- The `for { select { ... } }` loop of `CDS.StreamClusters` (part_003),
    run over a finite schedule of notifications (the `ctx.Done()` arm only
    ends the stream).  State: `last` (the last version received) and
    `nonce`, incremented before each send; each response carries the
    marshalled cache values, `VersionInfo = FormatInt(last)` and
    `Nonce = FormatInt(nonce)`. -/
def cdsStream003 (nonce : Nat) : List CdsEvent → List (DiscoveryResponseRec ClusterRec)
  | [] => []
  | e :: rest =>
    let resources := e.values.map (fun c => AnyRec.mk ClusterType c)
    let nonce1 := nonce + 1
    { versionInfo := toString e.version,
      resources := resources,
      typeUrl := ClusterType,
      nonce := toString nonce1 } :: cdsStream003 nonce1 rest

/-- A `resourcer` registered with the part_004 `grpcServer`, plus the
    version counter of the resource cache behind it.  The counter is
    modelled from the spec (§4.4: each cache holds a monotone version,
    `update` advances it); the cache/Cond implementation is not among the
    sources.  `fetch` and `stream` never read it. -/
structure ResourcerRec where
  typeUrl : String
  resources : List (AnyRec String)
  version : Nat
deriving DecidableEq

/-- One iteration's worth of input to `grpcServer.stream` (part_004): the
    received request's `TypeUrl` and the version received on the channel. -/
structure StreamEvent where
  reqTypeUrl : String
  version : Nat

/-- The loop of `func (s *grpcServer) stream(st grpcStream)` (part_004):
    per iteration receive a request, look up the resourcer (an unknown
    `TypeUrl` ends the stream with an error), register, wait, and send a
    response whose `VersionInfo` and `Nonce` are both the literal `"0"`. -/
def grpcStream004 (server : String → Option ResourcerRec) (_last : Nat) :
    List StreamEvent → List (DiscoveryResponseRec String)
  | [] => []
  | e :: rest =>
    match server e.reqTypeUrl with
    | none => []
    | some r =>
      { versionInfo := "0",
        resources := r.resources,
        typeUrl := r.typeUrl,
        nonce := "0" } :: grpcStream004 server e.version rest

/-- `func (s *grpcServer) fetch(req *v2.DiscoveryRequest)` (part_004):
    look up the resourcer for the request's `TypeUrl` (error when absent),
    and answer once with the current resources, `VersionInfo: "0"` and
    `Nonce: "0"`. -/
def grpcFetch004 (server : String → Option ResourcerRec) (req : DiscoveryRequestRec) :
    Option (DiscoveryResponseRec String) :=
  match server req.typeUrl with
  | none => none
  | some r =>
    some { versionInfo := "0", resources := r.resources, typeUrl := r.typeUrl, nonce := "0" }

/-- `func (c *CDS) FetchClusters(...)` (part_003): always
    `grpc.Errorf(codes.Unimplemented, ...)`, no response. -/
def fetchClusters003 (_req : DiscoveryRequestRec) : Option (DiscoveryResponseRec ClusterRec) :=
  none

theorem cdsStream003_nonces (nonce : Nat) (evs : List CdsEvent) :
    (cdsStream003 nonce evs).map DiscoveryResponseRec.nonce =
      (List.range evs.length).map (fun i => toString (nonce + i + 1)) := by
  induction evs generalizing nonce with
  | nil => rfl
  | cons e rest ih =>
    simp only [cdsStream003, List.map_cons, List.length_cons, List.range_succ_eq_map,
      List.map_map, ih]
    refine List.cons_eq_cons.mpr ⟨?_, ?_⟩
    · congr 1
    · apply List.map_congr_left
      intro i _
      simp only [Function.comp_apply]
      congr 1
      omega

/-- C6 (amended): in the per-type stream handlers of part_003
    (`CDS.StreamClusters`; `EDS.StreamEndpoints` and `RDS.StreamRoutes` are
    the same loop), the nonces of the responses sent on one stream are the
    decimal encodings of 1, 2, 3, …, a strictly increasing sequence — for
    every schedule of notifications.  The consolidated `grpcServer.stream`
    of part_004 instead sends the constant nonce `"0"` on every response
    (see the counterexample). -/
theorem cds_stream_nonce_strictly_increasing (evs : List CdsEvent) :
    (cdsStream003 0 evs).map DiscoveryResponseRec.nonce =
      ((List.range evs.length).map (fun i => i + 1)).map toString ∧
    List.Chain' (· < ·) ((List.range evs.length).map (fun i => i + 1)) := by
  constructor
  · rw [cdsStream003_nonces 0 evs, List.map_map]
    apply List.map_congr_left
    intro i _
    simp only [Function.comp_apply]
    congr 1
    omega
  · apply List.Pairwise.chain'
    rw [List.pairwise_map]
    exact (List.pairwise_lt_range evs.length).imp (fun h => by omega)

/-- A cluster resourcer over a cache at version 3, for the C6 and C9
    examples. -/
def exampleResourcer : ResourcerRec :=
  { typeUrl := ClusterType, resources := [⟨ClusterType, "cluster-bytes"⟩], version := 3 }

/-- A server with `exampleResourcer` as its only registered resource type. -/
def exampleServer : String → Option ResourcerRec :=
  fun u => if u = ClusterType then some exampleResourcer else none

/-- C6 counterexample: a part_004 stream that sends two responses sends the
    nonce `"0"` both times — adjacent nonces are equal, so the nonce
    sequence is not strictly increasing under any reading. -/
theorem grpc_stream_nonce_constant :
    (grpcStream004 exampleServer 0 [⟨ClusterType, 1⟩, ⟨ClusterType, 2⟩]).map
        DiscoveryResponseRec.nonce = ["0", "0"] ∧
    ¬ List.Chain' (· ≠ ·)
      ((grpcStream004 exampleServer 0 [⟨ClusterType, 1⟩, ⟨ClusterType, 2⟩]).map
        DiscoveryResponseRec.nonce) := by
  constructor
  · rfl
  · intro h
    have heq : (grpcStream004 exampleServer 0 [⟨ClusterType, 1⟩, ⟨ClusterType, 2⟩]).map
        DiscoveryResponseRec.nonce = ["0", "0"] := rfl
    rw [heq] at h
    exact (List.chain'_cons.mp h).1 rfl

/-- C9 (amended): for every registered resource type, `grpcServer.fetch`
    (part_004) returns the cache's current resources exactly once — but
    with `version_info` the constant `"0"` (and nonce `"0"`), not the
    cache's version; and the part_003 per-type fetch endpoints
    (`CDS.FetchClusters`) return an Unimplemented error, no response at
    all. -/
theorem fetch_returns_snapshot_with_constant_version
    (server : String → Option ResourcerRec) (req : DiscoveryRequestRec)
    (r : ResourcerRec) (h : server req.typeUrl = some r) :
    grpcFetch004 server req =
      some { versionInfo := "0", resources := r.resources, typeUrl := r.typeUrl,
             nonce := "0" } ∧
    (∀ q : DiscoveryRequestRec, fetchClusters003 q = none) := by
  constructor
  · rw [grpcFetch004, h]
  · intro q
    rfl

/-- C9 witness: the amended theorem at the example server. -/
theorem fetch_constant_version_witness :
    grpcFetch004 exampleServer ⟨ClusterType, "7"⟩ =
      some { versionInfo := "0", resources := exampleResourcer.resources,
             typeUrl := exampleResourcer.typeUrl, nonce := "0" } :=
  (fetch_returns_snapshot_with_constant_version exampleServer ⟨ClusterType, "7"⟩
    exampleResourcer (by simp [exampleServer])).1

/-- C9 counterexample: against a cache at version 3, the fetch response's
    `version_info` is `"0"`, not the cache's current version `"3"`. -/
theorem fetch_version_info_not_cache_version :
    (grpcFetch004 exampleServer ⟨ClusterType, "7"⟩).map DiscoveryResponseRec.versionInfo =
        some "0" ∧
    ∀ r : ResourcerRec, exampleServer ClusterType = some r →
      (grpcFetch004 exampleServer ⟨ClusterType, "7"⟩).map DiscoveryResponseRec.versionInfo ≠
        some (toString r.version) := by
  constructor
  · rfl
  · intro r hr
    have h0 : exampleServer ClusterType = some exampleResourcer := by
      simp [exampleServer]
    rw [h0] at hr
    rw [← Option.some.inj hr]
    intro h
    have h2 : ("0" : String) = toString exampleResourcer.version := Option.some.inj h
    exact absurd h2 (by decide)
